import Mathlib

/-!
Verification of the round-resolution and game-state machine of
`sample-poker-game/poker_app.py`.

The Python source is shallowly embedded: pure helpers become Lean
functions; the Streamlit session state (`human_cards`, `ai_cards`,
`table_cards`, `scores`) becomes an explicit `GameState` record; the
per-capture round body (lines 242-283 of the source) becomes a state
transformer `roundStep`; the external model calls (`recognize_card`,
the streamed LLM invocation in `ai_decision`) become parameters: the
recognized card string, the accumulated streamed response (with `none`
modelling a raised exception in the external call), and a natural
number driving `random.choice`.  Python exceptions that the source does
not catch are modelled as distinguished results carrying the state as
mutated so far (Streamlit session state persists across a crash).
-/

namespace PokerApp

/-- Line 13 of the source: the fixed, ordered card-value enumeration. -/
def CARD_VALUES : List String := ["2", "3", "4", "5", "6", "7", "8", "9", "J", "Q", "K", "A"]

/-- Python `len(set(l))`: the number of distinct elements of `l`. -/
def distinctCount (l : List String) : Nat := l.dedup.length

/-- Lines 44-57, `deal_cards`.  `random.shuffle` is modelled by taking the
shuffled deck as the argument; the caller supplies a permutation of
`CARD_VALUES`.  The duplicate check `len(set(human+ai)) != 10` raising
`ValueError` is modelled by returning `none`. -/
def deal_cards (deck : List String) : Option (List String × List String) :=
  let human_cards := deck.take 5
  let ai_cards := (deck.drop 5).take 5
  if distinctCount (human_cards ++ ai_cards) ≠ 10 then none
  else some (human_cards, ai_cards)

/-- The mutable session state of one game: `st.session_state.human_cards`,
`ai_cards`, `table_cards` and the two entries of `scores`. -/
structure GameState where
  human_cards : List String
  ai_cards : List String
  table_cards : List (String × String)
  scores_human : Nat
  scores_ai : Nat
deriving Repr, DecidableEq

/-- Python `list.index` restricted to how the source uses it
(`CARD_VALUES.index(card)` on lines 260-261): the index of the first
occurrence, `none` when absent (where Python raises `ValueError`). -/
def index_of (l : List String) (c : String) : Option Nat :=
  match l with
  | [] => none
  | x :: xs => if x = c then some 0 else (index_of xs c).map (· + 1)

/-- Python `random.choice(l)`: an element at a uniformly random index.
The random draw is modelled by `rnd`; the chosen index is `rnd % l.length`.
`random.choice` on an empty list raises `IndexError`, modelled as `none`. -/
def random_choice (l : List String) (rnd : Nat) : Option String :=
  if l = [] then none else some (l.getD (rnd % l.length) "")

/-- Python `list.remove(x)`: drop the first occurrence of `x`, raising
`ValueError` (modelled as `none`) when `x` is absent. -/
def list_remove (l : List String) (x : String) : Option (List String) :=
  if x ∈ l then some (l.erase x) else none

/-! ### The structured-decision extraction of `ai_decision` (lines 176-188)

The accumulated streamed text is a `List Char`.  The Python
`rfind`/slicing/`replace`/`json.loads` operations are modelled below.
The `json.loads` model covers flat objects whose keys and values are
escape-free strings; every other input is rejected.  Responses outside
this subset (escape sequences, non-string or nested values) are treated
as parse failures; on such strings the code also reaches its fallback,
except when a valid card field sits beside a non-string-valued field, a
shape the fixed single-field prompt format does not produce. -/

def lbrace : Char := Char.ofNat 123
def rbrace : Char := Char.ofNat 125
def squote : Char := Char.ofNat 39
def dquote : Char := Char.ofNat 34
def bslash : Char := Char.ofNat 92

/-- Python `s.rfind(c)` for a single character: the largest index where
`c` occurs, `-1` when it does not occur. -/
def rfind : List Char → Char → Int
  | [], _ => -1
  | x :: xs, c =>
    if 0 ≤ rfind xs c then rfind xs c + 1
    else if x = c then 0 else -1

/-- Python slicing `s[start:stop]` on a list: negative bounds count from
the end, both bounds clamp to `[0, len]`. -/
def pySlice (s : List Char) (start stop : Int) : List Char :=
  ((s.take (if stop < 0 then max (stop + s.length) 0 else min stop s.length).toNat).drop
    (if start < 0 then max (start + s.length) 0 else min start s.length).toNat)

/-- Line 183: replace every single-quote character of the extracted
region by a double quote. -/
def normQuotes (s : List Char) : List Char :=
  s.map (fun c => if c = squote then dquote else c)

def isJsonWs (c : Char) : Bool :=
  c == ' ' || c == Char.ofNat 9 || c == Char.ofNat 10 || c == Char.ofNat 13

def skipWs (s : List Char) : List Char := s.dropWhile isJsonWs

/-- A character that may sit inside one of our modelled JSON string
literals: printable and neither a double quote nor a backslash. -/
def plainChar (c : Char) : Bool := c != dquote && c != bslash && 32 ≤ c.toNat

/-- Parse a JSON string literal made of `plainChar`s; return its content
and the rest of the input. -/
def parseJsonString (s : List Char) : Option (List Char × List Char) :=
  match s with
  | [] => none
  | c :: rest =>
    if c = dquote then
      let content := rest.takeWhile (fun x => x != dquote)
      match rest.dropWhile (fun x => x != dquote) with
      | [] => none
      | _ :: rest2 => if content.all plainChar then some (content, rest2) else none
    else none

/-- Parse `: "value"` then either `, pairs...` or the closing brace;
`fuel` bounds the recursion by the input length. -/
def parseMembers (fuel : Nat) (s : List Char) (key : List Char) :
    Option (List (List Char × List Char) × List Char) :=
  match fuel with
  | 0 => none
  | fuel + 1 =>
    match skipWs s with
    | [] => none
    | c :: rest =>
      if c = ':' then
        match parseJsonString (skipWs rest) with
        | none => none
        | some (value, rest2) =>
          match skipWs rest2 with
          | [] => none
          | c2 :: rest3 =>
            if c2 = rbrace then some ([(key, value)], rest3)
            else if c2 = ',' then
              match parseJsonString (skipWs rest3) with
              | none => none
              | some (key2, rest4) =>
                match parseMembers fuel rest4 key2 with
                | none => none
                | some (pairs, rest5) => some ((key, value) :: pairs, rest5)
            else none
      else none

/-- Model of `json.loads` restricted to flat string-to-string objects:
parse a whole input as one object, with nothing but whitespace after it. -/
def json_loads_obj (s : List Char) : Option (List (List Char × List Char)) :=
  match skipWs s with
  | [] => none
  | c :: rest =>
    if c = lbrace then
      match skipWs rest with
      | [] => none
      | c2 :: rest2 =>
        if c2 = rbrace then
          if skipWs rest2 = [] then some [] else none
        else
          match parseJsonString (c2 :: rest2) with
          | none => none
          | some (key, rest3) =>
            match parseMembers s.length rest3 key with
            | none => none
            | some (pairs, rest4) =>
              if skipWs rest4 = [] then some pairs else none
    else none

/-- Python `dict[k]` after `json.loads`: with duplicate keys the last
binding wins; `none` models `KeyError`. -/
def dictGet (pairs : List (List Char × List Char)) (k : List Char) : Option (List Char) :=
  (pairs.reverse.find? (fun p => p.1 == k)).map (fun p => p.2)

/-- Lines 176-188: find the last JSON object region in the response
(from the last left brace to one past the last right brace), normalize
single quotes to double quotes, JSON-decode it and read its `card`
field.  `none` is the caught `JSONDecodeError`/`KeyError` path. -/
def extract_card (full_response : List Char) : Option String :=
  let json_start := rfind full_response lbrace
  let json_end := rfind full_response rbrace + 1
  let json_str := pySlice full_response json_start json_end
  match json_loads_obj (normQuotes json_str) with
  | none => none
  | some pairs =>
    match dictGet pairs ("card".data) with
    | none => none
    | some v => some (String.mk v)

/-- Lines 124-201, `ai_decision`, with the external streamed LLM call
abstracted: `response` is the accumulated streamed text (`none` when
the external invocation raises, which propagates to the caller), and
`rnd` drives `random.choice`.  The result is the chosen card, or `none`
for an uncaught exception. -/
def ai_decision (_human_card : String) (ai_cards : List String)
    (response : Option (List Char)) (rnd : Nat) : Option String :=
  match response with
  | none => none
  | some full_response =>
    match extract_card full_response with
    | some chosen_card =>
      if chosen_card ∈ ai_cards then some chosen_card
      else random_choice ai_cards rnd
    | none => random_choice ai_cards rnd

/-! ### The round body (lines 242-283) -/

/-- Result of processing one captured card image.  `notInHand` is the
warning branch of lines 250-252 (state untouched); `crashed` is an
uncaught Python exception escaping the round body, carrying the session
state as already mutated (Streamlit keeps those mutations); `completed`
is a fully resolved round. -/
inductive RoundResult where
  | notInHand : GameState → RoundResult
  | crashed : GameState → RoundResult
  | completed : GameState → RoundResult
deriving Repr, DecidableEq

/-- Lines 242-273: the round body run when an image is captured.
`recognized_card` is the output of the external recognizer;
`response`/`rnd` parameterize `ai_decision` as above. -/
def roundStep (s : GameState) (recognized_card : String)
    (response : Option (List Char)) (rnd : Nat) : RoundResult :=
  if recognized_card ∈ s.human_cards then
    -- line 249 (st.session_state.human_cards.remove) has already happened in
    -- every state below; the removal of the ai card (line 257), the scoring
    -- (lines 263-270) and the table append (line 273) only happen on the
    -- completed path, and a crash keeps the mutations made before it.
    match ai_decision recognized_card s.ai_cards response rnd with
    | none => .crashed { s with human_cards := s.human_cards.erase recognized_card }
    | some ai_card =>
      match list_remove s.ai_cards ai_card with
      | none => .crashed { s with human_cards := s.human_cards.erase recognized_card }
      | some ai' =>
        match index_of CARD_VALUES recognized_card, index_of CARD_VALUES ai_card with
        | some human_value, some ai_value =>
          if human_value > ai_value then
            .completed ⟨s.human_cards.erase recognized_card, ai',
              s.table_cards ++ [(recognized_card, ai_card)], s.scores_human + 1, s.scores_ai⟩
          else if ai_value > human_value then
            .completed ⟨s.human_cards.erase recognized_card, ai',
              s.table_cards ++ [(recognized_card, ai_card)], s.scores_human, s.scores_ai + 1⟩
          else
            .completed ⟨s.human_cards.erase recognized_card, ai',
              s.table_cards ++ [(recognized_card, ai_card)], s.scores_human, s.scores_ai⟩
        | _, _ =>
          .crashed { s with human_cards := s.human_cards.erase recognized_card, ai_cards := ai' }
  else
    .notInHand s

/-- The terminal announcements of lines 277-283. -/
inductive Outcome where
  | humanWinsGame : Outcome
  | agentWinsGame : Outcome
  | tieGame : Outcome
deriving Repr, DecidableEq

/-- Lines 276-283: the game-over check after a resolved round.  `none`
means the game is still in progress (at least one hand nonempty). -/
def gameOutcome (s : GameState) : Option Outcome :=
  if s.human_cards = [] ∧ s.ai_cards = [] then
    if s.scores_human > s.scores_ai then some .humanWinsGame
    else if s.scores_ai > s.scores_human then some .agentWinsGame
    else some .tieGame
  else none

/-! ### Theorems about `deal_cards` -/

lemma card_values_nodup : CARD_VALUES.Nodup := by decide

lemma dealt_take_ten (deck : List String) :
    deck.take 5 ++ (deck.drop 5).take 5 = deck.take 10 :=
  (List.take_add deck 5 5).symm

lemma dealt_distinct (deck : List String) (hp : deck.Perm CARD_VALUES) :
    (deck.take 5 ++ (deck.drop 5).take 5).Nodup ∧
      distinctCount (deck.take 5 ++ (deck.drop 5).take 5) = 10 := by
  have hnd : deck.Nodup := hp.symm.nodup card_values_nodup
  have hlen : deck.length = 12 := hp.length_eq
  have h10 : (deck.take 10).Nodup := List.Nodup.sublist (List.take_sublist 10 deck) hnd
  rw [dealt_take_ten]
  refine ⟨h10, ?_⟩
  unfold distinctCount
  rw [h10.dedup, List.length_take, hlen]
  decide


/-- C9: the duplicate-deal error branch of `deal_cards` is unreachable:
for every deck that is a permutation of the 12 pairwise-distinct
`CARD_VALUES`, the union of the two dealt 5-card slices has exactly 10
distinct values, so `deal_cards` returns the two hands and never
raises. -/
theorem deal_cards_never_fails (deck : List String) (hp : deck.Perm CARD_VALUES) :
    deal_cards deck = some (deck.take 5, (deck.drop 5).take 5) := by
  have hd := (dealt_distinct deck hp).2
  unfold deal_cards
  simp [hd]

/-- Witness for C9 at the identity shuffle. -/
theorem deal_cards_never_fails_witness :
    CARD_VALUES.Perm CARD_VALUES ∧
      deal_cards CARD_VALUES = some (["2", "3", "4", "5", "6"], ["7", "8", "9", "J", "Q"]) :=
  ⟨List.Perm.refl _, deal_cards_never_fails CARD_VALUES (List.Perm.refl _)⟩

/-- C3: every deal from a shuffled deck yields two hands of exactly 5
distinct values each, disjoint from one another (10 distinct values in
the union); and any violation of the 10-distinct-values postcondition
makes `deal_cards` raise (return `none`) instead of being silently
recovered. -/
theorem deal_cards_postcondition (deck : List String) (hp : deck.Perm CARD_VALUES) :
    (∃ human ai, deal_cards deck = some (human, ai) ∧
      human.length = 5 ∧ ai.length = 5 ∧ human.Nodup ∧ ai.Nodup ∧
      (∀ c ∈ human, c ∉ ai) ∧ distinctCount (human ++ ai) = 10) ∧
    (∀ d : List String,
      distinctCount (d.take 5 ++ (d.drop 5).take 5) ≠ 10 → deal_cards d = none) := by
  constructor
  · refine ⟨deck.take 5, (deck.drop 5).take 5, ?_, ?_, ?_, ?_, ?_, ?_, ?_⟩
    · have hd := (dealt_distinct deck hp).2
      unfold deal_cards
      simp [hd]
    · have hlen : deck.length = 12 := hp.length_eq
      rw [List.length_take, hlen]
      decide
    · have hlen : deck.length = 12 := hp.length_eq
      rw [List.length_take, List.length_drop, hlen]
      decide
    · exact (List.nodup_append.mp (dealt_distinct deck hp).1).1
    · exact (List.nodup_append.mp (dealt_distinct deck hp).1).2.1
    · exact (List.nodup_append.mp (dealt_distinct deck hp).1).2.2
    · exact (dealt_distinct deck hp).2
  · intro d hd
    unfold deal_cards
    simp [hd]

/-- Witness for C3 at the identity shuffle. -/
theorem deal_cards_postcondition_witness :
    CARD_VALUES.Perm CARD_VALUES ∧
      (∃ human ai, deal_cards CARD_VALUES = some (human, ai) ∧
        human.length = 5 ∧ ai.length = 5 ∧ human.Nodup ∧ ai.Nodup ∧
        (∀ c ∈ human, c ∉ ai) ∧ distinctCount (human ++ ai) = 10) :=
  ⟨List.Perm.refl _, (deal_cards_postcondition CARD_VALUES (List.Perm.refl _)).1⟩

/-! ### Theorems about the round body -/

/-- Full characterization of a completed round: the two plays, their
`CARD_VALUES` indices, and how every field of the state changed. -/
lemma roundStep_completed_inv (s s' : GameState) (recognized_card : String)
    (response : Option (List Char)) (rnd : Nat)
    (h1 : recognized_card ∈ s.human_cards)
    (h2 : roundStep s recognized_card response rnd = .completed s') :
    ∃ ai_card human_value ai_value,
      ai_decision recognized_card s.ai_cards response rnd = some ai_card ∧
      ai_card ∈ s.ai_cards ∧
      index_of CARD_VALUES recognized_card = some human_value ∧
      index_of CARD_VALUES ai_card = some ai_value ∧
      s'.human_cards = s.human_cards.erase recognized_card ∧
      s'.ai_cards = s.ai_cards.erase ai_card ∧
      s'.table_cards = s.table_cards ++ [(recognized_card, ai_card)] ∧
      s'.scores_human = (if human_value > ai_value then s.scores_human + 1 else s.scores_human) ∧
      s'.scores_ai = (if ai_value > human_value then s.scores_ai + 1 else s.scores_ai) := by
  unfold roundStep at h2
  rw [if_pos h1] at h2
  cases hd : ai_decision recognized_card s.ai_cards response rnd with
  | none => rw [hd] at h2; exact absurd h2 (by simp)
  | some ai_card =>
    rw [hd] at h2
    unfold list_remove at h2
    simp only [] at h2
    by_cases hm : ai_card ∈ s.ai_cards
    · rw [if_pos hm] at h2
      simp only [] at h2
      cases hih : index_of CARD_VALUES recognized_card with
      | none =>
        rw [hih] at h2
        cases hia : index_of CARD_VALUES ai_card <;> rw [hia] at h2 <;>
          exact absurd h2 (by simp)
      | some human_value =>
        cases hia : index_of CARD_VALUES ai_card with
        | none => rw [hih, hia] at h2; exact absurd h2 (by simp)
        | some ai_value =>
          rw [hih, hia] at h2
          simp only [] at h2
          refine ⟨ai_card, human_value, ai_value, rfl, hm, rfl, hia, ?_, ?_, ?_, ?_, ?_⟩ <;>
            (split at h2 <;> try split at h2) <;> cases h2 <;> (try split) <;> simp_all <;>
            omega
    · rw [if_neg hm] at h2
      exact absurd h2 (by simp)

/-- C1: in every completed round, with `human_value` and `ai_value` the
indices of the two played cards in the fixed `CARD_VALUES` order,
exactly the side with the strictly greater value gets +1 on its score,
and on equal values neither score changes. -/
theorem round_scoring (s s' : GameState) (recognized_card : String)
    (response : Option (List Char)) (rnd : Nat)
    (h1 : recognized_card ∈ s.human_cards)
    (h2 : roundStep s recognized_card response rnd = .completed s') :
    ∃ ai_card human_value ai_value,
      ai_decision recognized_card s.ai_cards response rnd = some ai_card ∧
      index_of CARD_VALUES recognized_card = some human_value ∧
      index_of CARD_VALUES ai_card = some ai_value ∧
      (human_value > ai_value →
        s'.scores_human = s.scores_human + 1 ∧ s'.scores_ai = s.scores_ai) ∧
      (ai_value > human_value →
        s'.scores_ai = s.scores_ai + 1 ∧ s'.scores_human = s.scores_human) ∧
      (human_value = ai_value →
        s'.scores_human = s.scores_human ∧ s'.scores_ai = s.scores_ai) := by
  obtain ⟨ai_card, hv, av, hd, hm, hih, hia, _, _, _, hsh, hsa⟩ :=
    roundStep_completed_inv s s' recognized_card response rnd h1 h2
  refine ⟨ai_card, hv, av, hd, hih, hia, ?_, ?_, ?_⟩ <;> intro hcmp <;>
    rw [hsh, hsa] <;> constructor <;> split <;> omega

/-- Witness for C1: a concrete completed round (human plays 2, agent
answers with 7 via the parsed stream) in which the agent side scores. -/
theorem round_scoring_witness :
    ("2" ∈ (["2", "3", "4", "5", "6"] : List String)) ∧
    roundStep ⟨["2", "3", "4", "5", "6"], ["7", "8", "9", "J", "Q"], [], 0, 0⟩ "2"
        (some ("\x7b\x27card\x27: \x277\x27\x7d".data)) 0 =
      .completed ⟨["3", "4", "5", "6"], ["8", "9", "J", "Q"], [("2", "7")], 0, 1⟩ ∧
    ∃ ai_card human_value ai_value,
      ai_decision "2" ["7", "8", "9", "J", "Q"] (some ("\x7b\x27card\x27: \x277\x27\x7d".data)) 0 =
        some ai_card ∧
      index_of CARD_VALUES "2" = some human_value ∧
      index_of CARD_VALUES ai_card = some ai_value ∧
      (human_value > ai_value → (0 : Nat) = 0 + 1 ∧ (1 : Nat) = 0) ∧
      (ai_value > human_value → (1 : Nat) = 0 + 1 ∧ (0 : Nat) = 0) ∧
      (human_value = ai_value → (0 : Nat) = 0 ∧ (1 : Nat) = 0) := by
  refine ⟨by decide, by decide, ?_⟩
  exact round_scoring ⟨["2", "3", "4", "5", "6"], ["7", "8", "9", "J", "Q"], [], 0, 0⟩
    ⟨["3", "4", "5", "6"], ["8", "9", "J", "Q"], [("2", "7")], 0, 1⟩ "2"
    (some ("\x7b\x27card\x27: \x277\x27\x7d".data)) 0 (by decide) (by decide)

/-- C6: submitting a recognized card that is not in the human hand
leaves the whole state unchanged and takes the recoverable warning
branch (`notInHand`), neither crashing nor mutating anything. -/
theorem submit_not_in_hand (s : GameState) (recognized_card : String)
    (response : Option (List Char)) (rnd : Nat)
    (h : recognized_card ∉ s.human_cards) :
    roundStep s recognized_card response rnd = .notInHand s := by
  unfold roundStep
  rw [if_neg h]

/-- Witness for C6: playing an ace that is not in the dealt hand. -/
theorem submit_not_in_hand_witness :
    ("A" ∉ (["2", "3", "4", "5", "6"] : List String)) ∧
    roundStep ⟨["2", "3", "4", "5", "6"], ["7", "8", "9", "J", "Q"], [], 0, 0⟩ "A" none 0 =
      .notInHand ⟨["2", "3", "4", "5", "6"], ["7", "8", "9", "J", "Q"], [], 0, 0⟩ :=
  ⟨by decide,
    submit_not_in_hand ⟨["2", "3", "4", "5", "6"], ["7", "8", "9", "J", "Q"], [], 0, 0⟩
      "A" none 0 (by decide)⟩

/-- Counterexample to C4 as stated: on a successful human submission the
card is removed from the human hand immediately (line 249), before the
opponent-agent call, so when that call fails (modelled by `response =
none`) the resulting state has a mutated human hand: the claim that
both hands are unchanged is false at this concrete input. -/
theorem staged_play_counterexample :
    roundStep ⟨["2", "3", "4", "5", "6"], ["7", "8", "9", "J", "Q"], [], 0, 0⟩ "2" none 0 =
      .crashed ⟨["3", "4", "5", "6"], ["7", "8", "9", "J", "Q"], [], 0, 0⟩ ∧
    (["3", "4", "5", "6"] : List String) ≠ ["2", "3", "4", "5", "6"] := by
  constructor
  · rfl
  · decide

/-- C4 amended: on a successful human submission the card is removed
from the human hand at once; if the subsequent opponent-agent call
fails, the scores, the play history and the agent hand are unchanged
but the human hand has already lost the played card (no round record is
written). -/
theorem human_card_removed_before_agent_call (s : GameState) (recognized_card : String)
    (rnd : Nat) (h : recognized_card ∈ s.human_cards) :
    roundStep s recognized_card none rnd =
      .crashed { s with human_cards := s.human_cards.erase recognized_card } := by
  unfold roundStep
  rw [if_pos h]
  rfl

/-- Witness for the amended C4. -/
theorem human_card_removed_before_agent_call_witness :
    ("2" ∈ (["2", "3", "4", "5", "6"] : List String)) ∧
    roundStep ⟨["2", "3", "4", "5", "6"], ["7", "8", "9", "J", "Q"], [], 0, 0⟩ "2" none 0 =
      .crashed ⟨["3", "4", "5", "6"], ["7", "8", "9", "J", "Q"], [], 0, 0⟩ :=
  ⟨by decide,
    human_card_removed_before_agent_call
      ⟨["2", "3", "4", "5", "6"], ["7", "8", "9", "J", "Q"], [], 0, 0⟩ "2" 0 (by decide)⟩

/-- C5: whenever the streamed agent response yields no parseable
structured decision, or names a card outside the agent hand,
`ai_decision` does not raise: it returns the uniformly chosen card at
index `rnd % |hand|` of the agent hand, which is a member of the hand,
so the round proceeds normally. -/
theorem agent_fallback (human_card : String) (ai_cards : List String)
    (resp : List Char) (rnd : Nat) (hne : ai_cards ≠ [])
    (hbad : extract_card resp = none ∨
      ∃ c, extract_card resp = some c ∧ c ∉ ai_cards) :
    ai_decision human_card ai_cards (some resp) rnd =
      some (ai_cards.getD (rnd % ai_cards.length) "") ∧
    ai_cards.getD (rnd % ai_cards.length) "" ∈ ai_cards := by
  have hlt : rnd % ai_cards.length < ai_cards.length :=
    Nat.mod_lt _ (List.length_pos.mpr hne)
  have hmem : ai_cards.getD (rnd % ai_cards.length) "" ∈ ai_cards := by
    rw [List.getD_eq_getElem _ _ hlt]
    exact List.getElem_mem _
  refine ⟨?_, hmem⟩
  unfold ai_decision
  simp only []
  rcases hbad with hb | ⟨c, hc, hcn⟩
  · rw [hb]
    simp only []
    unfold random_choice
    rw [if_neg hne]
  · rw [hc]
    simp only []
    rw [if_neg hcn]
    unfold random_choice
    rw [if_neg hne]

/-- Witness for C5: a response with no structured decision falls back
to the hand card at index `3 % 2 = 1`. -/
theorem agent_fallback_witness :
    ((["7", "8"] : List String) ≠ []) ∧
    (extract_card ("garbage".data) = none ∨
      ∃ c, extract_card ("garbage".data) = some c ∧ c ∉ (["7", "8"] : List String)) ∧
    ai_decision "2" ["7", "8"] (some ("garbage".data)) 3 = some "8" :=
  ⟨by decide, Or.inl (by decide),
    (agent_fallback "2" ["7", "8"] ("garbage".data) 3 (by decide) (Or.inl (by decide))).1⟩

/-- C7: every round that completes resolution shrinks each hand by
exactly one card, keeps equally long hands equally long, and appends
exactly one play record (the pair of played values) to the history. -/
theorem round_shrinks_hands (s s' : GameState) (recognized_card : String)
    (response : Option (List Char)) (rnd : Nat)
    (h1 : recognized_card ∈ s.human_cards)
    (h2 : roundStep s recognized_card response rnd = .completed s') :
    s'.human_cards.length + 1 = s.human_cards.length ∧
    s'.ai_cards.length + 1 = s.ai_cards.length ∧
    (s.human_cards.length = s.ai_cards.length →
      s'.human_cards.length = s'.ai_cards.length) ∧
    ∃ ai_card, s'.table_cards = s.table_cards ++ [(recognized_card, ai_card)] ∧
      s'.table_cards.length = s.table_cards.length + 1 := by
  obtain ⟨ai_card, hv, av, _, hm, _, _, hh, ha, ht, _, _⟩ :=
    roundStep_completed_inv s s' recognized_card response rnd h1 h2
  have e1 : (s.human_cards.erase recognized_card).length + 1 = s.human_cards.length :=
    List.length_erase_add_one h1
  have e2 : (s.ai_cards.erase ai_card).length + 1 = s.ai_cards.length :=
    List.length_erase_add_one hm
  rw [hh, ha, ht]
  refine ⟨e1, e2, by omega, ai_card, rfl, ?_⟩
  rw [List.length_append]
  rfl

/-- Witness for C7 at the concrete round of the C1 witness. -/
theorem round_shrinks_hands_witness :
    ("2" ∈ (["2", "3", "4", "5", "6"] : List String)) ∧
    (4 : Nat) + 1 = 5 ∧
    ∃ ai_card,
      ([("2", ai_card)] : List (String × String)) = [] ++ [("2", ai_card)] := by
  refine ⟨by decide, ?_, ?_⟩
  · have h := round_shrinks_hands ⟨["2", "3", "4", "5", "6"], ["7", "8", "9", "J", "Q"], [], 0, 0⟩
      ⟨["3", "4", "5", "6"], ["8", "9", "J", "Q"], [("2", "7")], 0, 1⟩ "2"
      (some ("\x7b\x27card\x27: \x277\x27\x7d".data)) 0 (by decide) (by decide)
    exact h.1
  · exact ⟨"7", by decide⟩

/-- C10: a completed round appends exactly one history entry, changes
the score total by exactly one unless the two played values tie (in
which case it is unchanged), and therefore preserves the invariant that
the score total is bounded by the history length. -/
theorem score_bounded_by_history (s s' : GameState) (recognized_card : String)
    (response : Option (List Char)) (rnd : Nat)
    (h1 : recognized_card ∈ s.human_cards)
    (h2 : roundStep s recognized_card response rnd = .completed s') :
    s'.table_cards.length = s.table_cards.length + 1 ∧
    (∃ ai_card human_value ai_value,
      ai_decision recognized_card s.ai_cards response rnd = some ai_card ∧
      index_of CARD_VALUES recognized_card = some human_value ∧
      index_of CARD_VALUES ai_card = some ai_value ∧
      ((human_value = ai_value ∧
          s'.scores_human + s'.scores_ai = s.scores_human + s.scores_ai) ∨
        (human_value ≠ ai_value ∧
          s'.scores_human + s'.scores_ai = s.scores_human + s.scores_ai + 1))) ∧
    (s.scores_human + s.scores_ai ≤ s.table_cards.length →
      s'.scores_human + s'.scores_ai ≤ s'.table_cards.length) := by
  obtain ⟨ai_card, hv, av, hd, hm, hih, hia, hh, ha, ht, hsh, hsa⟩ :=
    roundStep_completed_inv s s' recognized_card response rnd h1 h2
  have hlen : s'.table_cards.length = s.table_cards.length + 1 := by
    rw [ht, List.length_append]
    rfl
  refine ⟨hlen, ⟨ai_card, hv, av, hd, hih, hia, ?_⟩, ?_⟩
  · by_cases hva : hv = av
    · left
      refine ⟨hva, ?_⟩
      rw [hsh, hsa, if_neg (by omega), if_neg (by omega)]
    · right
      refine ⟨hva, ?_⟩
      rw [hsh, hsa]
      rcases Nat.lt_or_ge hv av with hlt | hge
      · rw [if_neg (by omega), if_pos (by omega)]
        omega
      · rw [if_pos (by omega), if_neg (by omega)]
        omega
  · intro hb
    rw [hsh, hsa, hlen]
    split <;> split <;> omega

/-- Witness for C10 at the concrete round of the C1 witness. -/
theorem score_bounded_by_history_witness :
    ("2" ∈ (["2", "3", "4", "5", "6"] : List String)) ∧
    ((0 : Nat) + 0 ≤ 0) ∧ (1 : Nat) = 0 + 1 ∧ (0 : Nat) + 1 ≤ 1 := by
  refine ⟨by decide, by decide, ?_, ?_⟩
  · have h := score_bounded_by_history
      ⟨["2", "3", "4", "5", "6"], ["7", "8", "9", "J", "Q"], [], 0, 0⟩
      ⟨["3", "4", "5", "6"], ["8", "9", "J", "Q"], [("2", "7")], 0, 1⟩ "2"
      (some ("\x7b\x27card\x27: \x277\x27\x7d".data)) 0 (by decide) (by decide)
    simpa using h.1
  · have h := score_bounded_by_history
      ⟨["2", "3", "4", "5", "6"], ["7", "8", "9", "J", "Q"], [], 0, 0⟩
      ⟨["3", "4", "5", "6"], ["8", "9", "J", "Q"], [("2", "7")], 0, 1⟩ "2"
      (some ("\x7b\x27card\x27: \x277\x27\x7d".data)) 0 (by decide) (by decide)
    simpa using h.2.2 (by decide)

/-- C2: the game is announced finished exactly when both hands are
empty, and the final outcome is derived purely from the cumulative
scores: the strictly higher total wins, equal totals tie. -/
theorem game_finished_iff (s : GameState) :
    ((∃ o, gameOutcome s = some o) ↔ s.human_cards = [] ∧ s.ai_cards = []) ∧
    (gameOutcome s = some Outcome.humanWinsGame ↔
      s.human_cards = [] ∧ s.ai_cards = [] ∧ s.scores_human > s.scores_ai) ∧
    (gameOutcome s = some Outcome.agentWinsGame ↔
      s.human_cards = [] ∧ s.ai_cards = [] ∧ s.scores_ai > s.scores_human) ∧
    (gameOutcome s = some Outcome.tieGame ↔
      s.human_cards = [] ∧ s.ai_cards = [] ∧ s.scores_human = s.scores_ai) := by
  unfold gameOutcome
  by_cases hh : s.human_cards = [] <;> by_cases ha : s.ai_cards = [] <;>
    by_cases h1 : s.scores_human > s.scores_ai <;>
    by_cases h2 : s.scores_ai > s.scores_human <;>
    simp [hh, ha, h1, h2] <;> omega

/-! ### Theorems about the structured-decision extraction -/

lemma rfind_nil (c : Char) : rfind [] c = -1 := rfl

lemma rfind_cons (x : Char) (xs : List Char) (c : Char) :
    rfind (x :: xs) c =
      if 0 ≤ rfind xs c then rfind xs c + 1 else if x = c then 0 else -1 := rfl

lemma rfind_eq_neg_one (l : List Char) (c : Char) (h : c ∉ l) : rfind l c = -1 := by
  induction l with
  | nil => rfl
  | cons x xs ih =>
    simp only [List.mem_cons, not_or] at h
    unfold rfind
    rw [ih h.2]
    rw [if_neg (by norm_num), if_neg (fun hh => h.1 hh.symm)]

lemma rfind_nonneg (l : List Char) (c : Char) (h : c ∈ l) : 0 ≤ rfind l c := by
  induction l with
  | nil => cases h
  | cons x xs ih =>
    unfold rfind
    by_cases hx : 0 ≤ rfind xs c
    · rw [if_pos hx]
      omega
    · rw [if_neg hx]
      rcases List.mem_cons.mp h with h1 | h2
      · rw [if_pos h1.symm]
      · exact absurd (ih h2) hx

lemma rfind_append (p f : List Char) (c : Char) (h : c ∈ f) :
    rfind (p ++ f) c = p.length + rfind f c := by
  induction p with
  | nil => simp
  | cons x xs ih =>
    have hx : 0 ≤ rfind (xs ++ f) c := by
      rw [ih]
      have := rfind_nonneg f c h
      omega
    rw [List.cons_append, rfind_cons, if_pos hx, ih]
    push_cast [List.length_cons]
    omega

lemma rfind_concat (l : List Char) (c : Char) : rfind (l ++ [c]) c = l.length := by
  rw [rfind_append l [c] c (by simp)]
  have h1 : rfind [c] c = 0 := by
    rw [rfind_cons, rfind_nil, if_neg (by norm_num), if_pos rfl]
  rw [h1]
  omega

lemma rfind_cons_head (l : List Char) (c : Char) (h : c ∉ l) : rfind (c :: l) c = 0 := by
  unfold rfind
  rw [rfind_eq_neg_one l c h, if_neg (by norm_num), if_pos rfl]

lemma pySlice_append (p f : List Char) :
    pySlice (p ++ f) (p.length : Int) ((p ++ f).length : Int) = f := by
  unfold pySlice
  rw [if_neg (by omega), if_neg (by omega), min_self,
    min_eq_left (by exact_mod_cast List.length_append p f ▸ Nat.le_add_right _ _),
    Int.toNat_natCast, Int.toNat_natCast, List.take_length, List.drop_left]

lemma normQuotes_cons (x : Char) (l : List Char) :
    normQuotes (x :: l) = (if x = squote then dquote else x) :: normQuotes l := rfl

lemma normQuotes_eq_self (v : List Char) (h : squote ∉ v) : normQuotes v = v := by
  induction v with
  | nil => rfl
  | cons x xs ih =>
    simp only [List.mem_cons, not_or] at h
    rw [normQuotes_cons, if_neg (fun hh => h.1 hh.symm), ih h.2]

lemma takeWhile_append_stop (pr : Char → Bool) (l : List Char) (y : Char) (r : List Char)
    (hl : ∀ x ∈ l, pr x = true) (hy : pr y = false) :
    (l ++ y :: r).takeWhile pr = l := by
  induction l with
  | nil => simp [List.takeWhile_cons, hy]
  | cons x xs ih =>
    have hx := hl x (by simp)
    simp only [List.cons_append, List.takeWhile_cons, hx, if_true]
    rw [ih (fun z hz => hl z (by simp [hz]))]

lemma dropWhile_append_stop (pr : Char → Bool) (l : List Char) (y : Char) (r : List Char)
    (hl : ∀ x ∈ l, pr x = true) (hy : pr y = false) :
    (l ++ y :: r).dropWhile pr = y :: r := by
  induction l with
  | nil => simp [List.dropWhile_cons, hy]
  | cons x xs ih =>
    have hx := hl x (by simp)
    simp only [List.cons_append, List.dropWhile_cons, hx, if_true]
    exact ih (fun z hz => hl z (by simp [hz]))

/-- A well-formed structured card fragment as the stream is expected to
end with: a single JSON object whose one field is `card`, quoted
throughout with the quote character `q`. -/
def mkFragment (q : Char) (v : List Char) : List Char :=
  lbrace :: q :: 'c' :: 'a' :: 'r' :: 'd' :: q :: ':' :: ' ' :: q :: (v ++ [q, rbrace])

/-- The character conditions on a card value under which the fragment
is within the modelled `json.loads` subset and interacts with nothing
outside itself: printable, and none of backslash, either quote kind, or
a brace. -/
def tameChar (c : Char) : Bool :=
  plainChar c && c != squote && c != lbrace && c != rbrace

lemma tame_plain (v : List Char) (hv : ∀ x ∈ v, tameChar x = true) :
    ∀ x ∈ v, plainChar x = true := by
  intro x hx
  have := hv x hx
  unfold tameChar at this
  simp only [Bool.and_eq_true] at this
  exact this.1.1.1

lemma tame_not_squote (v : List Char) (hv : ∀ x ∈ v, tameChar x = true) : squote ∉ v := by
  intro hx
  have := hv squote hx
  simp [tameChar] at this

lemma tame_not_dquote (v : List Char) (hv : ∀ x ∈ v, tameChar x = true) :
    ∀ x ∈ v, (x != dquote) = true := by
  intro x hx
  have := hv x hx
  simp only [tameChar, plainChar, Bool.and_eq_true] at this
  exact this.1.1.1.1.1

lemma tame_not_lbrace (v : List Char) (hv : ∀ x ∈ v, tameChar x = true) : lbrace ∉ v := by
  intro hx
  have := hv lbrace hx
  simp [tameChar] at this

lemma parseMembers_single (fuel : Nat) (key v : List Char)
    (hv : ∀ x ∈ v, tameChar x = true) (hfuel : 1 ≤ fuel) :
    parseMembers fuel (':' :: ' ' :: dquote :: (v ++ [dquote, rbrace])) key =
      some ([(key, v)], []) := by
  obtain ⟨n, rfl⟩ : ∃ n, fuel = n + 1 := ⟨fuel - 1, by omega⟩
  have h1 : (v ++ [dquote, rbrace]).takeWhile (fun x => x != dquote) = v :=
    takeWhile_append_stop _ v dquote [rbrace] (tame_not_dquote v hv) (by decide)
  have h2 : (v ++ [dquote, rbrace]).dropWhile (fun x => x != dquote) = dquote :: [rbrace] :=
    dropWhile_append_stop _ v dquote [rbrace] (tame_not_dquote v hv) (by decide)
  have h3 : v.all plainChar = true := List.all_eq_true.mpr (tame_plain v hv)
  have e1 : isJsonWs ':' = false := by decide
  have e2 : isJsonWs ' ' = true := by decide
  have e3 : isJsonWs dquote = false := by decide
  have e4 : isJsonWs rbrace = false := by decide
  unfold parseMembers parseJsonString
  simp only [skipWs, List.dropWhile_cons, e1, e2, e3, e4, if_pos rfl, if_false, if_true,
    Bool.false_eq_true, ite_false, ite_true, h1, h2, h3]

lemma json_loads_frag (v : List Char) (hv : ∀ x ∈ v, tameChar x = true) :
    json_loads_obj (mkFragment dquote v) = some [("card".data, v)] := by
  have e1 : isJsonWs lbrace = false := by decide
  have e2 : isJsonWs dquote = false := by decide
  have e6 : ¬(dquote = rbrace) := by decide
  have hk1 : ('c' :: 'a' :: 'r' :: 'd' :: dquote :: ':' :: ' ' :: dquote ::
      (v ++ [dquote, rbrace])).takeWhile (fun x => x != dquote) = ['c', 'a', 'r', 'd'] :=
    takeWhile_append_stop _ ['c', 'a', 'r', 'd'] dquote
      (':' :: ' ' :: dquote :: (v ++ [dquote, rbrace])) (by decide) (by decide)
  have hk2 : ('c' :: 'a' :: 'r' :: 'd' :: dquote :: ':' :: ' ' :: dquote ::
      (v ++ [dquote, rbrace])).dropWhile (fun x => x != dquote) =
      dquote :: ':' :: ' ' :: dquote :: (v ++ [dquote, rbrace]) :=
    dropWhile_append_stop _ ['c', 'a', 'r', 'd'] dquote
      (':' :: ' ' :: dquote :: (v ++ [dquote, rbrace])) (by decide) (by decide)
  have hm := parseMembers_single
    ((lbrace :: dquote :: 'c' :: 'a' :: 'r' :: 'd' :: dquote :: ':' :: ' ' :: dquote ::
      (v ++ [dquote, rbrace])).length)
    ['c', 'a', 'r', 'd'] v hv (by simp)
  unfold json_loads_obj parseJsonString
  simp only [mkFragment, skipWs, List.dropWhile_cons, e1, e2, if_pos rfl, if_neg e6,
    Bool.false_eq_true, ite_false, hk1, hk2, hm]
  have ha : ['c', 'a', 'r', 'd'].all plainChar = true := by decide
  simp only [if_true, ite_true, if_pos ha, hm, List.dropWhile_nil, if_pos rfl]

lemma normQuotes_nil : normQuotes [] = [] := rfl

lemma normQuotes_append (l r : List Char) :
    normQuotes (l ++ r) = normQuotes l ++ normQuotes r := by
  unfold normQuotes
  exact List.map_append _ _ _

lemma normQuotes_mkFragment (q : Char) (v : List Char) (hq : q = squote ∨ q = dquote)
    (hsv : squote ∉ v) :
    normQuotes (mkFragment q v) = mkFragment dquote v := by
  have hnv := normQuotes_eq_self v hsv
  have c1 : ¬(lbrace = squote) := by decide
  have c2 : ¬('c' = squote) := by decide
  have c3 : ¬('a' = squote) := by decide
  have c4 : ¬('r' = squote) := by decide
  have c5 : ¬('d' = squote) := by decide
  have c6 : ¬(':' = squote) := by decide
  have c7 : ¬(' ' = squote) := by decide
  have c8 : ¬(rbrace = squote) := by decide
  have c9 : ¬(dquote = squote) := by decide
  rcases hq with rfl | rfl <;>
    simp only [mkFragment, normQuotes_cons, normQuotes_append, normQuotes_nil, hnv,
      if_neg c1, if_neg c2, if_neg c3, if_neg c4, if_neg c5, if_neg c6, if_neg c7,
      if_neg c8, if_neg c9, if_pos rfl, eq_self_iff_true, ite_true]

lemma mkFragment_length (q : Char) (v : List Char) :
    (mkFragment q v).length = v.length + 12 := by
  simp [mkFragment]

/-- C8 amended, positive half: whenever the accumulated streamed text
ends with a well-formed structured card fragment (single- or
double-quoted, with a tame card value), the region from the last left
brace to the last right brace is exactly that final fragment, and the
extraction returns its card value — whatever text came before it. -/
theorem extract_card_of_final_fragment (p v : List Char) (q : Char)
    (hq : q = squote ∨ q = dquote)
    (hv : ∀ x ∈ v, tameChar x = true) :
    extract_card (p ++ mkFragment q v) = some (String.mk v) := by
  have hql : ¬(lbrace = q) := by rcases hq with rfl | rfl <;> decide
  have hlv := tame_not_lbrace v hv
  -- the last left brace of the text is the head of the fragment
  have hnotin : lbrace ∉ (q :: 'c' :: 'a' :: 'r' :: 'd' :: q :: ':' :: ' ' :: q ::
      (v ++ [q, rbrace])) := by
    intro hmem
    simp only [List.mem_cons, List.mem_append, List.not_mem_nil, or_false] at hmem
    casesm* _ ∨ _ <;> rename_i h <;>
      first
        | exact hql h
        | exact hlv h
        | exact absurd h (by decide)
  have hfrag0 : rfind (mkFragment q v) lbrace = 0 := rfind_cons_head _ lbrace hnotin
  have hlb_mem : lbrace ∈ mkFragment q v := by simp [mkFragment]
  have hstart : rfind (p ++ mkFragment q v) lbrace = (p.length : Int) := by
    rw [rfind_append p _ lbrace hlb_mem, hfrag0]
    omega
  -- the last right brace of the text is the last character of the fragment
  have hsplit : mkFragment q v =
      (lbrace :: q :: 'c' :: 'a' :: 'r' :: 'd' :: q :: ':' :: ' ' :: q :: (v ++ [q])) ++
        [rbrace] := by
    simp [mkFragment]
  have hfragr : rfind (mkFragment q v) rbrace =
      ((lbrace :: q :: 'c' :: 'a' :: 'r' :: 'd' :: q :: ':' :: ' ' :: q ::
        (v ++ [q])).length : Int) := by
    rw [hsplit]
    exact rfind_concat _ rbrace
  have hrb_mem : rbrace ∈ mkFragment q v := by simp [mkFragment]
  have hend : rfind (p ++ mkFragment q v) rbrace + 1 =
      (((p ++ mkFragment q v).length : Nat) : Int) := by
    rw [rfind_append p _ rbrace hrb_mem, hfragr]
    simp [List.length_append, mkFragment_length, List.length_cons]
    omega
  unfold extract_card
  rw [hstart, hend]
  simp only []
  rw [pySlice_append p (mkFragment q v),
    normQuotes_mkFragment q v hq (tame_not_squote v hv), json_loads_frag v hv]
  have hbeq : ("card".data == "card".data) = true := by decide
  simp [dictGet, List.find?, hbeq]

/-- Witness for the amended C8: a single-quoted fragment at the end of
a noisy stream is located and its card value returned. -/
theorem extract_card_of_final_fragment_witness :
    (squote = squote ∨ squote = dquote) ∧
    (∀ x ∈ ("A".data), tameChar x = true) ∧
    extract_card ("noise ".data ++ mkFragment squote ("A".data)) =
      some (String.mk "A".data) :=
  ⟨Or.inl rfl, by decide,
    extract_card_of_final_fragment ("noise ".data) ("A".data) squote (Or.inl rfl) (by decide)⟩

/-- Counterexample to C8 as stated: the extraction does not locate the
last well-formed structured fragment; it takes the region from the last
left brace to the last right brace.  In a stream whose last well-formed
fragment carries card value A but which continues with one more stray
left brace, that region is empty, extraction fails (so the random
fallback fires) instead of returning A — even though the same stream
without the stray brace extracts A. -/
theorem extract_last_fragment_counterexample :
    extract_card ("\x7b\x27card\x27: \x27A\x27\x7d".data ++ [lbrace]) = none ∧
    extract_card ("\x7b\x27card\x27: \x27A\x27\x7d".data) = some "A" := by
  constructor <;> decide

end PokerApp
